import Mathlib

/-!
Shallow embedding of `src/linearlight/current_calibration/run.mjs`.

The script drives a four-channel LED fixture over HTTP.  We embed the
device-facing behaviour as a state machine: every device round trip
(`PUT /level`, `PUT /ctrl`, `GET /limit`) is one step that either fails
(transport error or non-ok HTTP status, cf. `errorHandler`) or succeeds
and is appended to an operation log.  The environment supplies
 * `trip idx v` — the boolean read back by `getLimitSignal(idx)` when the
   channel `idx` is currently driven at value `v` (the limit signal is a
   function of the drive state of the fixture), and
 * `fail k`    — whether the `k`-th device round trip of the session
   fails (a failed round trip aborts the promise chain; its effect on the
   device is not modelled, and it is not appended to the log).
`storage.setItem(limitsKey, _)` writes are logged separately in `stored`;
the persistent store is an external collaborator and never fails here.
`console` output is not modelled.

The recursive `findLimit` of the source carries no fuel; here it takes a
fuel argument counting allowed recursive calls, and we prove (`C5`) that
any fuel above the width `hi - lo` of the search range yields the same,
defined result, so the fuel is a modelling artifact only.  `getLimits`
always searches `0..255` and is given fuel `256`, which is sufficient.
-/

namespace LinearLight

/-- Decimal digit characters of a natural number — what JavaScript's
implicit `String(n)` coercion produces for a non-negative integer. -/
def digits (n : Nat) : List Char := Nat.toDigits 10 n

/-- UTF-16 code-unit lexicographic comparison of character lists, i.e.
JavaScript string comparison `a <= b` (for the ASCII decimal strings we
feed it, code units coincide with `Char.toNat`). -/
def charListLe : List Char → List Char → Bool
  | [], _ => true
  | _ :: _, [] => false
  | a :: as, b :: bs =>
    if a.toNat < b.toNat then true
    else if b.toNat < a.toNat then false
    else charListLe as bs

/-- The ordering actually used by `a.sort()` in `median`: JavaScript's
default sort comparator coerces both elements to strings and compares
them lexicographically. -/
def jsLe (a b : Nat) : Bool := charListLe (digits a) (digits b)

/-- Insertion into a list sorted by `jsLe`. -/
def jsInsert (x : Nat) : List Nat → List Nat
  | [] => [x]
  | y :: ys => if jsLe x y then x :: y :: ys else y :: jsInsert x ys

/-- The result of JavaScript `a.sort()` (no comparator) on an array of
natural numbers.  ECMAScript guarantees the result is sorted with respect
to the default string comparator; since distinct naturals have distinct
decimal strings, that sorted permutation is unique, so any sorting
algorithm over `jsLe` — here insertion sort — produces it. -/
def jsSort : List Nat → List Nat
  | [] => []
  | x :: xs => jsInsert x (jsSort xs)

/-- `median` from run.mjs:
`const mid = Math.floor(a.length/2); return a.sort()[mid];`
Note the comparator-less `sort()` (string order).  Indexing an empty
array gives `undefined` in JS; we return `0` then — all uses in the
claims have non-empty input. -/
def median (a : List Nat) : Nat := (jsSort a).getD (a.length / 2) 0

/-- The aggregation rule in the words of the specification (§4.2): sort
the samples in ascending *numeric* order and pick the element at index
`floor(n/2)`.  Kept separate from `median` (the code) so the two can be
compared. -/
def specAggregate (a : List Nat) : Nat :=
  (List.insertionSort (· ≤ ·) a).getD (a.length / 2) 0

/-- One device round trip, as recorded in the operation log. -/
inductive DevOp where
  | setLevel (level : Nat)
  | setChannels (vals : List Nat)
  | getLimit (idx : Nat)
deriving DecidableEq

/-- The environment: the fixture's trip-signal behaviour and which
round trips fail. -/
structure DevEnv where
  trip : Nat → Nat → Bool
  fail : Nat → Bool

/-- Observable session state: the log of successful device round trips,
the channel values last written by a successful `PUT /ctrl`, and the
`storage.setItem(limitsKey, _)` writes performed. -/
structure DevState where
  ops : List DevOp
  chans : List Nat
  stored : List (List Nat)
deriving DecidableEq

/-- State at script start: no round trips yet, fixture drive state taken
as all-zero, nothing written to storage. -/
def initState : DevState := ⟨[], [0, 0, 0, 0], []⟩

/-- `setLevel(level)`: `PUT /level` with body `L<level>`, then settle.
`none` models a rejected promise (transport error or `errorHandler`
rejection). -/
def setLevel (env : DevEnv) (level : Nat) (s : DevState) :
    Option Unit × DevState :=
  if env.fail s.ops.length then (none, s)
  else (some (), { s with ops := s.ops ++ [DevOp.setLevel level] })

/-- `setChannels(arr)`: `PUT /ctrl` with body `W<c0>,<c1>,<c2>,<c3>`,
then settle.  On success the fixture's drive state becomes `arr`. -/
def setChannels (env : DevEnv) (arr : List Nat) (s : DevState) :
    Option Unit × DevState :=
  if env.fail s.ops.length then (none, s)
  else (some (), { s with ops := s.ops ++ [DevOp.setChannels arr], chans := arr })

/-- `getLimitSignal(idx)`: `GET /limit` and decode.  The boolean read
back is the environment's trip signal for channel `idx` at its current
drive value. -/
def getLimitSignal (env : DevEnv) (idx : Nat) (s : DevState) :
    Option Bool × DevState :=
  if env.fail s.ops.length then (none, s)
  else (some (env.trip idx (s.chans.getD idx 0)),
        { s with ops := s.ops ++ [DevOp.getLimit idx] })

/-- `const channelKey = ['pin17', 'pin16', 'pin5', 'pin19'];` -/
def channelKey : List String := ["pin17", "pin16", "pin5", "pin19"]

/-- The decoding step of `getLimitSignal` in isolation:
`j => j[channelKey[idx]] !== 0`.  `j` is the JSON object returned by
`GET /limit`, modelled as a partial map from field names to numbers; a
missing field reads as `undefined` in JS, and `undefined !== 0` is
`true`. -/
def limitSignalOfJson (j : String → Option Nat) (idx : Nat) : Bool :=
  match j (channelKey.getD idx "") with
  | some v => decide (v ≠ 0)
  | none => true

/-- `channelValues(idx, value)`: the array `[0,0,0,0]` with slot `idx`
overwritten by `value`. -/
def channelValues (idx value : Nat) : List Nat :=
  List.set [0, 0, 0, 0] idx value

/-- `findLimit(idx, lo, hi)` from run.mjs, with an added fuel argument
bounding the recursion depth (the source recursion is unbounded; see the
header note and claim C5):
```
const mid = Math.floor((lo+hi)/2);
if (mid === lo) return lo;
await setChannels(channelValues(idx, mid));
const limit = await getLimitSignal(idx);
return limit ? findLimit(idx, lo, mid) : findLimit(idx, mid, hi);
```
The source binds `mid` once; we inline the pure expression. -/
def findLimit (env : DevEnv) (idx : Nat) :
    Nat → Nat → Nat → DevState → Option Nat × DevState
  | _, _, 0, s => (none, s)
  | lo, hi, fuel + 1, s =>
    if (lo + hi) / 2 = lo then (some lo, s)
    else
      match setChannels env (channelValues idx ((lo + hi) / 2)) s with
      | (none, s1) => (none, s1)
      | (some _, s1) =>
        match getLimitSignal env idx s1 with
        | (none, s2) => (none, s2)
        | (some true, s2) => findLimit env idx lo ((lo + hi) / 2) fuel s2
        | (some false, s2) => findLimit env idx ((lo + hi) / 2) hi fuel s2

/-- Sequential `findLimit(c, 0, 255)` over a list of channels,
collecting the discovered limits in order.  `getLimits()` in the source
is the array literal of four sequential `await findLimit(c, 0, 255)`
calls; this fold over the channel list is that same sequencing. -/
def getLimitsFrom (env : DevEnv) : List Nat → DevState → Option (List Nat) × DevState
  | [], s => (some [], s)
  | c :: cs, s =>
    match findLimit env c 0 255 256 s with
    | (none, s1) => (none, s1)
    | (some v, s1) =>
      match getLimitsFrom env cs s1 with
      | (none, s2) => (none, s2)
      | (some vs, s2) => (some (v :: vs), s2)

/-- `getLimits()`: `findLimit(c, 0, 255)` for the four channels in
order. -/
def getLimits (env : DevEnv) (s : DevState) :
    Option (List Nat) × DevState :=
  getLimitsFrom env [0, 1, 2, 3] s

/-- The `for(let i = 0; i < n; ++i)` loop of `calib`, collecting one
`getLimits()` sample per iteration (first iteration first). -/
def calibRuns (env : DevEnv) : Nat → DevState → Option (List (List Nat)) × DevState
  | 0, s => (some [], s)
  | n + 1, s =>
    match getLimits env s with
    | (none, s1) => (none, s1)
    | (some run, s1) =>
      match calibRuns env n s1 with
      | (none, s2) => (none, s2)
      | (some runs, s2) => (some (run :: runs), s2)

/-- `calib(n, log)` from run.mjs: `setLevel(255)`; `n` sampling runs;
`setLevel(0)`; per-channel `median`; `storage.setItem(limitsKey, limits)`;
return the limits.  The `log` argument only controls `console.log` in the
source and has no modelled effect. -/
def calib (env : DevEnv) (n : Nat) (log : Bool) (s : DevState) :
    Option (List Nat) × DevState :=
  match setLevel env 255 s with
  | (none, s1) => (none, s1)
  | (some _, s1) =>
    match calibRuns env n s1 with
    | (none, s2) => (none, s2)
    | (some runs, s2) =>
      match setLevel env 0 s2 with
      | (none, s3) => (none, s3)
      | (some _, s3) =>
        let limits := [median (runs.map (fun run => run.getD 0 0)),
                       median (runs.map (fun run => run.getD 1 0)),
                       median (runs.map (fun run => run.getD 2 0)),
                       median (runs.map (fun run => run.getD 3 0))]
        (some limits, { s3 with stored := s3.stored ++ [limits] })

/-- The value `initLevels` sends: `level || 255` where `level` is the
stored `LEVEL` value or `undefined`.  In JS, `undefined` and `0` are
falsy, so both fall back to `255`. -/
def levelFallback (storedLevel : Option Nat) : Nat :=
  match storedLevel with
  | none => 255
  | some l => if l = 0 then 255 else l

/-- `initLevels()` from run.mjs: read `LEVEL` from storage (here passed
in as `storedLevel`) and `setLevel(level || 255)`. -/
def initLevels (env : DevEnv) (storedLevel : Option Nat) (s : DevState) :
    Option Unit × DevState :=
  setLevel env (levelFallback storedLevel) s

/-- The channel values computed by the `colour X` command:
`lim.map(x => Math.floor(k*x))`.  The float fraction `k` is modelled as a
rational. -/
def colourValues (k : ℚ) (lim : List Nat) : List Int :=
  lim.map (fun x : Nat => Int.floor (k * (x : ℚ)))

/-- Environment with no device failures. -/
def noFail : Nat → Bool := fun _ => false

/-- A monotonic trip signal with per-channel threshold `T`: channel
`idx` trips exactly at values strictly above `T idx`. -/
def thresholdTrip (T : Nat → Nat) : Nat → Nat → Bool :=
  fun idx v => decide (T idx < v)

/-- Number of `setChannels` round trips in a log — one per write/read
step of `findLimit`. -/
def countWrites : List DevOp → Nat
  | [] => 0
  | DevOp.setChannels _ :: rest => countWrites rest + 1
  | _ :: rest => countWrites rest

/-- The successive arguments of the successful `setLevel` round trips in
a log. -/
def levelsOf : List DevOp → List Nat
  | [] => []
  | DevOp.setLevel l :: rest => l :: levelsOf rest
  | _ :: rest => levelsOf rest

/-- The level the device is left at after a log of round trips (`none`
if no `setLevel` ever succeeded). -/
def lastLevel (ops : List DevOp) : Option Nat := (levelsOf ops).getLast?

/-- The state reached from `s` by one successful write/read step of
`findLimit env idx lo hi`. -/
def stepSt (idx lo hi : Nat) (s : DevState) : DevState :=
  { s with
    ops := (s.ops ++ [DevOp.setChannels (channelValues idx ((lo + hi) / 2))])
             ++ [DevOp.getLimit idx],
    chans := channelValues idx ((lo + hi) / 2) }

theorem countWrites_append (l1 l2 : List DevOp) :
    countWrites (l1 ++ l2) = countWrites l1 + countWrites l2 := by
  induction l1 with
  | nil => simp [countWrites]
  | cons op rest ih => cases op <;> simp [countWrites, ih] <;> omega

theorem levelsOf_append (l1 l2 : List DevOp) :
    levelsOf (l1 ++ l2) = levelsOf l1 ++ levelsOf l2 := by
  induction l1 with
  | nil => simp [levelsOf]
  | cons op rest ih => cases op <;> simp [levelsOf, ih]

theorem mem_levelsOf {l : Nat} {ops : List DevOp}
    (h : DevOp.setLevel l ∈ ops) : l ∈ levelsOf ops := by
  induction ops with
  | nil => simp at h
  | cons op rest ih =>
    rcases List.mem_cons.1 h with h1 | h1
    · rw [← h1]; simp [levelsOf]
    · cases op <;> simp [levelsOf, ih h1]

theorem levelsOf_eq_nil {t : List DevOp}
    (h : ∀ op ∈ t, ∀ l, op ≠ DevOp.setLevel l) : levelsOf t = [] := by
  induction t with
  | nil => rfl
  | cons op rest ih =>
    cases op with
    | setLevel l => exact absurd rfl (h _ (by simp) l)
    | setChannels vals =>
      exact (by simp [levelsOf] : levelsOf (DevOp.setChannels vals :: rest) = levelsOf rest).trans
        (ih fun op hop l => h op (by simp [hop]) l)
    | getLimit i =>
      exact (by simp [levelsOf] : levelsOf (DevOp.getLimit i :: rest) = levelsOf rest).trans
        (ih fun op hop l => h op (by simp [hop]) l)

theorem channelValues_getD_self {idx : Nat} (h4 : idx < 4) (v : Nat) :
    (channelValues idx v).getD idx 0 = v := by
  interval_cases idx <;> rfl

theorem channelValues_getD_ne {idx j : Nat} (hj : j < 4) (hne : j ≠ idx) (v : Nat) :
    (channelValues idx v).getD j 0 = 0 := by
  have h : (channelValues idx v)[j]? = ([0, 0, 0, 0] : List Nat)[j]? :=
    List.getElem?_set_ne (fun h => hne h.symm)
  rw [List.getD_eq_getElem?_getD, h]
  interval_cases j <;> rfl

theorem setLevel_fail {env : DevEnv} {l : Nat} {s : DevState}
    (h : env.fail s.ops.length = true) : setLevel env l s = (none, s) := by
  simp [setLevel, h]

theorem setLevel_ok {env : DevEnv} {l : Nat} {s : DevState}
    (h : env.fail s.ops.length = false) :
    setLevel env l s = (some (), { s with ops := s.ops ++ [DevOp.setLevel l] }) := by
  simp [setLevel, h]

theorem setChannels_fail {env : DevEnv} {arr : List Nat} {s : DevState}
    (h : env.fail s.ops.length = true) : setChannels env arr s = (none, s) := by
  simp [setChannels, h]

theorem setChannels_ok {env : DevEnv} {arr : List Nat} {s : DevState}
    (h : env.fail s.ops.length = false) :
    setChannels env arr s =
      (some (), { s with ops := s.ops ++ [DevOp.setChannels arr], chans := arr }) := by
  simp [setChannels, h]

theorem getLimitSignal_fail {env : DevEnv} {idx : Nat} {s : DevState}
    (h : env.fail s.ops.length = true) : getLimitSignal env idx s = (none, s) := by
  simp [getLimitSignal, h]

theorem getLimitSignal_ok {env : DevEnv} {idx : Nat} {s : DevState}
    (h : env.fail s.ops.length = false) :
    getLimitSignal env idx s =
      (some (env.trip idx (s.chans.getD idx 0)),
       { s with ops := s.ops ++ [DevOp.getLimit idx] }) := by
  simp [getLimitSignal, h]

theorem findLimit_zero (env : DevEnv) (idx lo hi : Nat) (s : DevState) :
    findLimit env idx lo hi 0 s = (none, s) := rfl

theorem findLimit_succ (env : DevEnv) (idx lo hi fuel : Nat) (s : DevState) :
    findLimit env idx lo hi (fuel + 1) s =
      if (lo + hi) / 2 = lo then (some lo, s)
      else
        match setChannels env (channelValues idx ((lo + hi) / 2)) s with
        | (none, s1) => (none, s1)
        | (some _, s1) =>
          match getLimitSignal env idx s1 with
          | (none, s2) => (none, s2)
          | (some true, s2) => findLimit env idx lo ((lo + hi) / 2) fuel s2
          | (some false, s2) => findLimit env idx ((lo + hi) / 2) hi fuel s2 := rfl

/-- One write/read step of `findLimit` in a failure-free environment:
drive the channel to `mid`, read the trip signal, recurse on the
corresponding half of the range. -/
theorem findLimit_step (trip : Nat → Nat → Bool) (idx lo hi fuel : Nat) (s : DevState)
    (hml : (lo + hi) / 2 ≠ lo) :
    findLimit ⟨trip, noFail⟩ idx lo hi (fuel + 1) s =
      if trip idx ((channelValues idx ((lo + hi) / 2)).getD idx 0) then
        findLimit ⟨trip, noFail⟩ idx lo ((lo + hi) / 2) fuel (stepSt idx lo hi s)
      else
        findLimit ⟨trip, noFail⟩ idx ((lo + hi) / 2) hi fuel (stepSt idx lo hi s) := by
  rw [findLimit_succ, if_neg hml, setChannels_ok rfl]
  dsimp only
  rw [getLimitSignal_ok rfl]
  dsimp only
  cases htr : trip idx ((channelValues idx ((lo + hi) / 2)).getD idx 0) <;> rfl

/-- Structure of the state change made by `findLimit`: it only appends
device operations to the log (never touching the persistent store), and
every operation it appends is either a `setChannels` write isolating
channel `idx` (all other channels 0) or a `getLimit idx` read. -/
theorem findLimit_delta (env : DevEnv) (idx : Nat) :
    ∀ (fuel lo hi : Nat) (s : DevState), ∃ t : List DevOp,
      (findLimit env idx lo hi fuel s).2.ops = s.ops ++ t ∧
      (findLimit env idx lo hi fuel s).2.stored = s.stored ∧
      ∀ op ∈ t,
        (∃ vals, op = DevOp.setChannels vals ∧
          ∀ j, j < 4 → j ≠ idx → vals.getD j 0 = 0) ∨ op = DevOp.getLimit idx := by
  intro fuel
  induction fuel with
  | zero => intro lo hi s; exact ⟨[], by simp [findLimit_zero]⟩
  | succ fuel ih =>
    intro lo hi s
    rw [findLimit_succ]
    by_cases hml : (lo + hi) / 2 = lo
    · exact ⟨[], by simp [hml]⟩
    · rw [if_neg hml]
      cases hf1 : env.fail s.ops.length with
      | true =>
        rw [setChannels_fail hf1]
        exact ⟨[], by simp⟩
      | false =>
        rw [setChannels_ok hf1]
        dsimp only
        cases hf2 : env.fail
            (s.ops ++ [DevOp.setChannels (channelValues idx ((lo + hi) / 2))]).length with
        | true =>
          rw [getLimitSignal_fail hf2]
          refine ⟨[DevOp.setChannels (channelValues idx ((lo + hi) / 2))], by simp, by simp, ?_⟩
          intro op hop
          rw [List.mem_singleton] at hop
          subst hop
          exact Or.inl ⟨_, rfl, fun j hj hne => channelValues_getD_ne hj hne _⟩
        | false =>
          rw [getLimitSignal_ok hf2]
          dsimp only
          cases htr : env.trip idx ((channelValues idx ((lo + hi) / 2)).getD idx 0) with
          | true =>
            dsimp only
            rcases ih lo ((lo + hi) / 2)
                ⟨s.ops ++ [DevOp.setChannels (channelValues idx ((lo + hi) / 2))]
                    ++ [DevOp.getLimit idx],
                  channelValues idx ((lo + hi) / 2), s.stored⟩ with ⟨t, h1, h2, h3⟩
            refine ⟨[DevOp.setChannels (channelValues idx ((lo + hi) / 2)),
                     DevOp.getLimit idx] ++ t, ?_, ?_, ?_⟩
            · rw [h1]; simp
            · rw [h2]
            · intro op hop
              rcases List.mem_append.1 hop with h | h
              · rcases List.mem_cons.1 h with h | h
                · exact Or.inl ⟨_, h, fun j hj hne => channelValues_getD_ne hj hne _⟩
                · simp at h
                  subst h
                  exact Or.inr rfl
              · exact h3 op h
          | false =>
            dsimp only
            rcases ih ((lo + hi) / 2) hi
                ⟨s.ops ++ [DevOp.setChannels (channelValues idx ((lo + hi) / 2))]
                    ++ [DevOp.getLimit idx],
                  channelValues idx ((lo + hi) / 2), s.stored⟩ with ⟨t, h1, h2, h3⟩
            refine ⟨[DevOp.setChannels (channelValues idx ((lo + hi) / 2)),
                     DevOp.getLimit idx] ++ t, ?_, ?_, ?_⟩
            · rw [h1]; simp
            · rw [h2]
            · intro op hop
              rcases List.mem_append.1 hop with h | h
              · rcases List.mem_cons.1 h with h | h
                · exact Or.inl ⟨_, h, fun j hj hne => channelValues_getD_ne hj hne _⟩
                · simp at h
                  subst h
                  exact Or.inr rfl
              · exact h3 op h

/-- With no device failures, any fuel exceeding the width of the search
range lets `findLimit` reach its terminal case and return a value, for
every trip signal whatsoever. -/
theorem findLimit_isSome (trip : Nat → Nat → Bool) (idx : Nat) :
    ∀ (fuel lo hi : Nat) (s : DevState), lo ≤ hi → hi - lo < fuel →
      (findLimit ⟨trip, noFail⟩ idx lo hi fuel s).1.isSome = true := by
  intro fuel
  induction fuel with
  | zero => intro lo hi s hlh h; omega
  | succ fuel ih =>
    intro lo hi s hlh h
    by_cases hml : (lo + hi) / 2 = lo
    · rw [findLimit_succ, if_pos hml]; rfl
    · rw [findLimit_step trip idx lo hi fuel s hml]
      cases htr : trip idx ((channelValues idx ((lo + hi) / 2)).getD idx 0) with
      | false =>
        rw [if_neg (by simp)]
        exact ih ((lo + hi) / 2) hi _ (by omega) (by omega)
      | true =>
        rw [if_pos rfl]
        exact ih lo ((lo + hi) / 2) _ (by omega) (by omega)

/-- The fuel argument is a modelling artifact: any two sufficient fuels
give the same outcome (same result, same device interaction), in any
environment.  This is the sense in which the unbounded source recursion
has one well-defined behaviour. -/
theorem findLimit_fuel (env : DevEnv) (idx : Nat) :
    ∀ (f1 f2 lo hi : Nat) (s : DevState), lo ≤ hi → hi - lo < f1 → hi - lo < f2 →
      findLimit env idx lo hi f1 s = findLimit env idx lo hi f2 s := by
  intro f1
  induction f1 with
  | zero => intro f2 lo hi s hlh h1 h2; omega
  | succ f1 ih =>
    intro f2 lo hi s hlh h1 h2
    cases f2 with
    | zero => omega
    | succ f2 =>
      by_cases hml : (lo + hi) / 2 = lo
      · rw [findLimit_succ env idx lo hi f1 s, findLimit_succ env idx lo hi f2 s,
            if_pos hml, if_pos hml]
      · rw [findLimit_succ env idx lo hi f1 s, findLimit_succ env idx lo hi f2 s,
            if_neg hml, if_neg hml]
        rcases h : setChannels env (channelValues idx ((lo + hi) / 2)) s with ⟨o1, s1⟩
        cases o1 with
        | none => rfl
        | some u =>
          dsimp only
          rcases h2 : getLimitSignal env idx s1 with ⟨o2, s2⟩
          cases o2 with
          | none => rfl
          | some b =>
            cases b with
            | true => exact ih f2 lo ((lo + hi) / 2) s2 (by omega) (by omega) (by omega)
            | false => exact ih f2 ((lo + hi) / 2) hi s2 (by omega) (by omega) (by omega)

/-- Core correctness of the binary search: against a monotonic trip
signal whose threshold `T idx` lies inside the open search range,
`findLimit` returns exactly `T idx`, and performs at most `k` write/read
steps when the range width is at most `2 ^ k`. -/
theorem findLimit_threshold (T : Nat → Nat) {idx : Nat} (h4 : idx < 4) :
    ∀ (k lo hi fuel : Nat) (s : DevState),
      hi - lo ≤ 2 ^ k → hi - lo ≤ fuel → lo ≤ T idx → T idx < hi →
      (findLimit ⟨thresholdTrip T, noFail⟩ idx lo hi fuel s).1 = some (T idx) ∧
      countWrites (findLimit ⟨thresholdTrip T, noFail⟩ idx lo hi fuel s).2.ops ≤
        countWrites s.ops + k := by
  intro k
  induction k with
  | zero =>
    intro lo hi fuel s hk hf hlo hhi
    have hml : (lo + hi) / 2 = lo := by omega
    have hT : T idx = lo := by omega
    cases fuel with
    | zero => omega
    | succ fuel =>
      rw [findLimit_succ, if_pos hml]
      exact ⟨by rw [hT], by simp⟩
  | succ k ih =>
    intro lo hi fuel s hk hf hlo hhi
    by_cases hml : (lo + hi) / 2 = lo
    · have hT : T idx = lo := by omega
      cases fuel with
      | zero => omega
      | succ fuel =>
        rw [findLimit_succ, if_pos hml]
        exact ⟨by rw [hT], by simp⟩
    · cases fuel with
      | zero => omega
      | succ fuel =>
        rw [findLimit_step _ idx lo hi fuel s hml, channelValues_getD_self h4]
        have hp : 2 ^ (k + 1) = 2 * 2 ^ k := by ring
        have hws : countWrites (stepSt idx lo hi s).ops = countWrites s.ops + 1 := by
          simp [stepSt, countWrites_append, countWrites]
        by_cases hTm : T idx < (lo + hi) / 2
        · rw [if_pos (by simp [thresholdTrip, hTm])]
          rcases ih lo ((lo + hi) / 2) fuel (stepSt idx lo hi s)
            (by omega) (by omega) hlo hTm with ⟨e1, e2⟩
          exact ⟨e1, by omega⟩
        · rw [if_neg (by simp [thresholdTrip, hTm])]
          rcases ih ((lo + hi) / 2) hi fuel (stepSt idx lo hi s)
            (by omega) (by omega) (by omega) hhi with ⟨e1, e2⟩
          exact ⟨e1, by omega⟩

theorem setLevel_none_fail {env : DevEnv} {l : Nat} {s s1 : DevState}
    (h : setLevel env l s = (none, s1)) : env.fail s.ops.length = true := by
  unfold setLevel at h
  split at h
  · assumption
  · simp at h

theorem setLevel_none_state {env : DevEnv} {l : Nat} {s s1 : DevState}
    (h : setLevel env l s = (none, s1)) : s1 = s := by
  unfold setLevel at h
  split at h
  · exact (Prod.mk.injEq _ _ _ _ ▸ h).2.symm
  · simp at h

theorem setLevel_some_state {env : DevEnv} {l : Nat} {s : DevState} {u : Unit} {s1 : DevState}
    (h : setLevel env l s = (some u, s1)) :
    s1 = { s with ops := s.ops ++ [DevOp.setLevel l] } := by
  unfold setLevel at h
  split at h
  · simp at h
  · exact (Prod.mk.injEq _ _ _ _ ▸ h).2.symm

/-- Everything `findLimit` appends to the log is a `setChannels` or a
`getLimit`, never a `setLevel`. -/
theorem delta_no_setLevel {idx : Nat} {t : List DevOp}
    (h : ∀ op ∈ t,
      (∃ vals, op = DevOp.setChannels vals ∧
        ∀ j, j < 4 → j ≠ idx → vals.getD j 0 = 0) ∨ op = DevOp.getLimit idx) :
    ∀ op ∈ t, ∀ l, op ≠ DevOp.setLevel l := by
  intro op hop l
  rcases h op hop with ⟨vals, he, _⟩ | he <;> subst he <;> simp

/-- `getLimitsFrom` only appends `setChannels`/`getLimit` round trips
and leaves the persistent store untouched. -/
theorem getLimitsFrom_delta (env : DevEnv) :
    ∀ (cs : List Nat) (s : DevState), ∃ t : List DevOp,
      (getLimitsFrom env cs s).2.ops = s.ops ++ t ∧
      (getLimitsFrom env cs s).2.stored = s.stored ∧
      ∀ op ∈ t, ∀ l, op ≠ DevOp.setLevel l := by
  intro cs
  induction cs with
  | nil => intro s; exact ⟨[], by simp [getLimitsFrom], by simp [getLimitsFrom], by simp⟩
  | cons c cs ih =>
    intro s
    unfold getLimitsFrom
    rcases h0 : findLimit env c 0 255 256 s with ⟨o0, u0⟩
    obtain ⟨t0, d0a, d0b, d0c⟩ := findLimit_delta env c 256 0 255 s
    rw [h0] at d0a d0b
    cases o0 with
    | none => exact ⟨t0, d0a, d0b, delta_no_setLevel d0c⟩
    | some v =>
      dsimp only
      rcases h1 : getLimitsFrom env cs u0 with ⟨o1, u1⟩
      obtain ⟨t1, d1a, d1b, d1c⟩ := ih u0
      rw [h1] at d1a d1b
      have e1a : u1.ops = s.ops ++ (t0 ++ t1) := by rw [d1a, d0a, List.append_assoc]
      have e1b : u1.stored = s.stored := by rw [d1b, d0b]
      have e1c : ∀ op ∈ t0 ++ t1, ∀ l, op ≠ DevOp.setLevel l := by
        intro op hop l
        rcases List.mem_append.1 hop with h | h
        · exact delta_no_setLevel d0c op h l
        · exact d1c op h l
      cases o1 with
      | none => exact ⟨t0 ++ t1, e1a, e1b, e1c⟩
      | some vs => exact ⟨t0 ++ t1, e1a, e1b, e1c⟩

/-- `getLimits` only appends `setChannels`/`getLimit` round trips and
leaves the persistent store untouched. -/
theorem getLimits_delta (env : DevEnv) (s : DevState) :
    ∃ t : List DevOp,
      (getLimits env s).2.ops = s.ops ++ t ∧
      (getLimits env s).2.stored = s.stored ∧
      ∀ op ∈ t, ∀ l, op ≠ DevOp.setLevel l :=
  getLimitsFrom_delta env [0, 1, 2, 3] s

/-- The sampling loop of `calib` only appends `setChannels`/`getLimit`
round trips and leaves the persistent store untouched. -/
theorem calibRuns_delta (env : DevEnv) :
    ∀ (n : Nat) (s : DevState), ∃ t : List DevOp,
      (calibRuns env n s).2.ops = s.ops ++ t ∧
      (calibRuns env n s).2.stored = s.stored ∧
      ∀ op ∈ t, ∀ l, op ≠ DevOp.setLevel l := by
  intro n
  induction n with
  | zero => intro s; exact ⟨[], by simp [calibRuns], by simp [calibRuns], by simp⟩
  | succ n ih =>
    intro s
    unfold calibRuns
    rcases hg : getLimits env s with ⟨og, ug⟩
    obtain ⟨tg, ga, gb, gc⟩ := getLimits_delta env s
    rw [hg] at ga gb
    cases og with
    | none => exact ⟨tg, ga, gb, gc⟩
    | some run =>
      dsimp only
      rcases hr : calibRuns env n ug with ⟨onext, unext⟩
      obtain ⟨tr, ra, rb, rc⟩ := ih ug
      rw [hr] at ra rb
      have ea : unext.ops = s.ops ++ (tg ++ tr) := by
        rw [ra, ga, List.append_assoc]
      have eb : unext.stored = s.stored := by rw [rb, gb]
      have ec : ∀ op ∈ tg ++ tr, ∀ l, op ≠ DevOp.setLevel l := by
        intro op hop l
        rcases List.mem_append.1 hop with h | h
        · exact gc op h l
        · exact rc op h l
      cases onext with
      | none => exact ⟨tg ++ tr, ea, eb, ec⟩
      | some runs => exact ⟨tg ++ tr, ea, eb, ec⟩

/-- A failed calibration writes nothing to the persistent store, and —
when its very first round trip (the `setLevel(255)`) succeeded — the
`setLevel` commands it has issued are exactly the prior ones followed by
`255`: in particular the final `setLevel(0)` of the success path was
never issued. -/
theorem calib_none_frame (env : DevEnv) (n : Nat) (log : Bool) (s : DevState)
    (hnone : (calib env n log s).1 = none) :
    (calib env n log s).2.stored = s.stored ∧
    (env.fail s.ops.length = false →
      levelsOf (calib env n log s).2.ops = levelsOf s.ops ++ [255]) := by
  unfold calib at hnone ⊢
  rcases ha : setLevel env 255 s with ⟨oa, sa⟩
  rw [ha] at hnone
  cases oa with
  | none =>
    dsimp only at hnone ⊢
    have hsa : sa = s := setLevel_none_state ha
    subst hsa
    refine ⟨rfl, fun hf => ?_⟩
    rw [setLevel_none_fail ha] at hf
    simp at hf
  | some u =>
    dsimp only at hnone ⊢
    have hsa : sa = { s with ops := s.ops ++ [DevOp.setLevel 255] } :=
      setLevel_some_state ha
    have hsaops : levelsOf sa.ops = levelsOf s.ops ++ [255] := by
      rw [hsa]; dsimp only; rw [levelsOf_append]; rfl
    have hsastored : sa.stored = s.stored := by rw [hsa]
    rcases hb : calibRuns env n sa with ⟨ob, sb⟩
    obtain ⟨tb, ba, bb, bc⟩ := calibRuns_delta env n sa
    rw [hb] at ba bb hnone
    have hsbops : levelsOf sb.ops = levelsOf s.ops ++ [255] := by
      rw [ba, levelsOf_append, levelsOf_eq_nil bc, hsaops, List.append_nil]
    have hsbstored : sb.stored = s.stored := by rw [bb, hsastored]
    cases ob with
    | none => exact ⟨hsbstored, fun _ => hsbops⟩
    | some runs =>
      dsimp only at hnone ⊢
      rcases hc : setLevel env 0 sb with ⟨oc, sc⟩
      rw [hc] at hnone
      cases oc with
      | none =>
        dsimp only at hnone ⊢
        have hsc : sc = sb := setLevel_none_state hc
        subst hsc
        exact ⟨hsbstored, fun _ => hsbops⟩
      | some u2 => simp at hnone

/-- A calibration that returns a `LimitSet` has written exactly that
`LimitSet` to the persistent store (one `storage.setItem` call, at the
very end). -/
theorem calib_some_stored (env : DevEnv) (n : Nat) (log : Bool) (s : DevState)
    (L : List Nat) (hsome : (calib env n log s).1 = some L) :
    (calib env n log s).2.stored = s.stored ++ [L] := by
  unfold calib at hsome ⊢
  rcases ha : setLevel env 255 s with ⟨oa, sa⟩
  rw [ha] at hsome
  cases oa with
  | none => simp at hsome
  | some u =>
    dsimp only at hsome ⊢
    have hsastored : sa.stored = s.stored := by
      rw [setLevel_some_state ha]
    rcases hb : calibRuns env n sa with ⟨ob, sb⟩
    obtain ⟨tb, ba, bb, bc⟩ := calibRuns_delta env n sa
    rw [hb] at bb hsome
    cases ob with
    | none => simp at hsome
    | some runs =>
      dsimp only at hsome ⊢
      rcases hc : setLevel env 0 sb with ⟨oc, sc⟩
      rw [hc] at hsome
      cases oc with
      | none => simp at hsome
      | some u2 =>
        dsimp only at hsome ⊢
        have hscstored : sc.stored = s.stored := by
          rw [setLevel_some_state hc, bb, hsastored]
        have hL : L = [median (runs.map (fun run => run.getD 0 0)),
                       median (runs.map (fun run => run.getD 1 0)),
                       median (runs.map (fun run => run.getD 2 0)),
                       median (runs.map (fun run => run.getD 3 0))] := by
          simpa using hsome.symm
        rw [hscstored, hL]

/-- Failures only truncate a `findLimit` run: compared with the same
environment without failures, the failing run either agrees entirely or
aborts with `none` having performed a prefix of the failure-free run's
device operations (no retries, no extra operations). -/
theorem findLimit_failPrefix (trip : Nat → Nat → Bool) (fail : Nat → Bool) (idx : Nat) :
    ∀ (fuel lo hi : Nat) (s : DevState),
      findLimit ⟨trip, fail⟩ idx lo hi fuel s = findLimit ⟨trip, noFail⟩ idx lo hi fuel s ∨
      ((findLimit ⟨trip, fail⟩ idx lo hi fuel s).1 = none ∧
        ∃ t, (findLimit ⟨trip, noFail⟩ idx lo hi fuel s).2.ops =
          (findLimit ⟨trip, fail⟩ idx lo hi fuel s).2.ops ++ t) := by
  intro fuel
  induction fuel with
  | zero => intro lo hi s; exact Or.inl rfl
  | succ fuel ih =>
    intro lo hi s
    by_cases hml : (lo + hi) / 2 = lo
    · rw [findLimit_succ, findLimit_succ, if_pos hml, if_pos hml]
      exact Or.inl rfl
    · cases hf1 : fail s.ops.length with
      | true =>
        have hF : findLimit ⟨trip, fail⟩ idx lo hi (fuel + 1) s = (none, s) := by
          rw [findLimit_succ, if_neg hml, setChannels_fail hf1]
        obtain ⟨t, hN, _, _⟩ :=
          findLimit_delta ⟨trip, noFail⟩ idx (fuel + 1) lo hi s
        rw [hF]
        exact Or.inr ⟨rfl, t, hN⟩
      | false =>
        cases hf2 : fail (s.ops ++
            [DevOp.setChannels (channelValues idx ((lo + hi) / 2))]).length with
        | true =>
          have hF : findLimit ⟨trip, fail⟩ idx lo hi (fuel + 1) s =
              (none, { s with
                ops := s.ops ++ [DevOp.setChannels (channelValues idx ((lo + hi) / 2))],
                chans := channelValues idx ((lo + hi) / 2) }) := by
            rw [findLimit_succ, if_neg hml, setChannels_ok hf1]
            dsimp only
            rw [getLimitSignal_fail hf2]
          cases htr : trip idx ((channelValues idx ((lo + hi) / 2)).getD idx 0) with
          | true =>
            have hN : findLimit ⟨trip, noFail⟩ idx lo hi (fuel + 1) s =
                findLimit ⟨trip, noFail⟩ idx lo ((lo + hi) / 2) fuel (stepSt idx lo hi s) := by
              rw [findLimit_step trip idx lo hi fuel s hml, if_pos (by rw [htr])]
            obtain ⟨t, hNo, _, _⟩ :=
              findLimit_delta ⟨trip, noFail⟩ idx fuel lo ((lo + hi) / 2) (stepSt idx lo hi s)
            rw [hF, hN]
            refine Or.inr ⟨rfl, DevOp.getLimit idx :: t, ?_⟩
            rw [hNo]
            simp [stepSt]
          | false =>
            have hN : findLimit ⟨trip, noFail⟩ idx lo hi (fuel + 1) s =
                findLimit ⟨trip, noFail⟩ idx ((lo + hi) / 2) hi fuel (stepSt idx lo hi s) := by
              rw [findLimit_step trip idx lo hi fuel s hml, if_neg (by rw [htr]; simp)]
            obtain ⟨t, hNo, _, _⟩ :=
              findLimit_delta ⟨trip, noFail⟩ idx fuel ((lo + hi) / 2) hi (stepSt idx lo hi s)
            rw [hF, hN]
            refine Or.inr ⟨rfl, DevOp.getLimit idx :: t, ?_⟩
            rw [hNo]
            simp [stepSt]
        | false =>
          cases htr : trip idx ((channelValues idx ((lo + hi) / 2)).getD idx 0) with
          | true =>
            have hF : findLimit ⟨trip, fail⟩ idx lo hi (fuel + 1) s =
                findLimit ⟨trip, fail⟩ idx lo ((lo + hi) / 2) fuel (stepSt idx lo hi s) := by
              rw [findLimit_succ, if_neg hml, setChannels_ok hf1]
              dsimp only
              rw [getLimitSignal_ok hf2]
              dsimp only
              rw [htr]
              rfl
            have hN : findLimit ⟨trip, noFail⟩ idx lo hi (fuel + 1) s =
                findLimit ⟨trip, noFail⟩ idx lo ((lo + hi) / 2) fuel (stepSt idx lo hi s) := by
              rw [findLimit_step trip idx lo hi fuel s hml, if_pos (by rw [htr])]
            rw [hF, hN]
            exact ih lo ((lo + hi) / 2) (stepSt idx lo hi s)
          | false =>
            have hF : findLimit ⟨trip, fail⟩ idx lo hi (fuel + 1) s =
                findLimit ⟨trip, fail⟩ idx ((lo + hi) / 2) hi fuel (stepSt idx lo hi s) := by
              rw [findLimit_succ, if_neg hml, setChannels_ok hf1]
              dsimp only
              rw [getLimitSignal_ok hf2]
              dsimp only
              rw [htr]
              rfl
            have hN : findLimit ⟨trip, noFail⟩ idx lo hi (fuel + 1) s =
                findLimit ⟨trip, noFail⟩ idx ((lo + hi) / 2) hi fuel (stepSt idx lo hi s) := by
              rw [findLimit_step trip idx lo hi fuel s hml, if_neg (by rw [htr]; simp)]
            rw [hF, hN]
            exact ih ((lo + hi) / 2) hi (stepSt idx lo hi s)

/-- Failures only truncate the per-channel sweep of `getLimits`. -/
theorem getLimitsFrom_failPrefix (trip : Nat → Nat → Bool) (fail : Nat → Bool) :
    ∀ (cs : List Nat) (s : DevState),
      getLimitsFrom ⟨trip, fail⟩ cs s = getLimitsFrom ⟨trip, noFail⟩ cs s ∨
      ((getLimitsFrom ⟨trip, fail⟩ cs s).1 = none ∧
        ∃ t, (getLimitsFrom ⟨trip, noFail⟩ cs s).2.ops =
          (getLimitsFrom ⟨trip, fail⟩ cs s).2.ops ++ t) := by
  intro cs
  induction cs with
  | nil => intro s; exact Or.inl rfl
  | cons c cs ih =>
    intro s
    unfold getLimitsFrom
    rcases findLimit_failPrefix trip fail c 256 0 255 s with h0 | ⟨h0n, t0, h0e⟩
    · rw [h0]
      rcases hN0 : findLimit ⟨trip, noFail⟩ c 0 255 256 s with ⟨o0, u0⟩
      cases o0 with
      | none => exact Or.inl rfl
      | some v =>
        dsimp only
        rcases ih u0 with h1 | ⟨h1n, t1, h1e⟩
        · rw [h1]
          rcases hN1 : getLimitsFrom ⟨trip, noFail⟩ cs u0 with ⟨o1, u1⟩
          cases o1 with
          | none => exact Or.inl rfl
          | some vs => exact Or.inl rfl
        · rcases hF1 : getLimitsFrom ⟨trip, fail⟩ cs u0 with ⟨oF1, uF1⟩
          rw [hF1] at h1n h1e
          dsimp only at h1n
          subst h1n
          rcases hN1 : getLimitsFrom ⟨trip, noFail⟩ cs u0 with ⟨oN1, uN1⟩
          rw [hN1] at h1e
          cases oN1 with
          | none => exact Or.inr ⟨rfl, t1, h1e⟩
          | some vs => exact Or.inr ⟨rfl, t1, h1e⟩
    · rcases hF0 : findLimit ⟨trip, fail⟩ c 0 255 256 s with ⟨oF0, uF0⟩
      rw [hF0] at h0n h0e
      dsimp only at h0n
      subst h0n
      rcases hN0 : findLimit ⟨trip, noFail⟩ c 0 255 256 s with ⟨oN0, uN0⟩
      rw [hN0] at h0e
      cases oN0 with
      | none => exact Or.inr ⟨rfl, t0, h0e⟩
      | some v =>
        dsimp only
        obtain ⟨t1, h1o, _, _⟩ := getLimitsFrom_delta ⟨trip, noFail⟩ cs uN0
        rcases hN1 : getLimitsFrom ⟨trip, noFail⟩ cs uN0 with ⟨oN1, uN1⟩
        rw [hN1] at h1o
        have he : uN1.ops = uF0.ops ++ (t0 ++ t1) := by
          rw [h1o, h0e, List.append_assoc]
        cases oN1 with
        | none => exact Or.inr ⟨rfl, t0 ++ t1, he⟩
        | some vs => exact Or.inr ⟨rfl, t0 ++ t1, he⟩

/-- Failures only truncate the sampling loop of `calib`. -/
theorem calibRuns_failPrefix (trip : Nat → Nat → Bool) (fail : Nat → Bool) :
    ∀ (n : Nat) (s : DevState),
      calibRuns ⟨trip, fail⟩ n s = calibRuns ⟨trip, noFail⟩ n s ∨
      ((calibRuns ⟨trip, fail⟩ n s).1 = none ∧
        ∃ t, (calibRuns ⟨trip, noFail⟩ n s).2.ops =
          (calibRuns ⟨trip, fail⟩ n s).2.ops ++ t) := by
  intro n
  induction n with
  | zero => intro s; exact Or.inl rfl
  | succ n ih =>
    intro s
    unfold calibRuns
    rcases getLimitsFrom_failPrefix trip fail [0, 1, 2, 3] s with h0 | ⟨h0n, t0, h0e⟩
    · rw [show getLimits ⟨trip, fail⟩ s = getLimits ⟨trip, noFail⟩ s from h0]
      rcases hN0 : getLimits ⟨trip, noFail⟩ s with ⟨o0, u0⟩
      cases o0 with
      | none => exact Or.inl rfl
      | some run =>
        dsimp only
        rcases ih u0 with h1 | ⟨h1n, t1, h1e⟩
        · rw [h1]
          rcases hN1 : calibRuns ⟨trip, noFail⟩ n u0 with ⟨o1, u1⟩
          cases o1 with
          | none => exact Or.inl rfl
          | some runs => exact Or.inl rfl
        · rcases hF1 : calibRuns ⟨trip, fail⟩ n u0 with ⟨oF1, uF1⟩
          rw [hF1] at h1n h1e
          dsimp only at h1n
          subst h1n
          rcases hN1 : calibRuns ⟨trip, noFail⟩ n u0 with ⟨oN1, uN1⟩
          rw [hN1] at h1e
          cases oN1 with
          | none => exact Or.inr ⟨rfl, t1, h1e⟩
          | some runs => exact Or.inr ⟨rfl, t1, h1e⟩
    · rcases hF0 : getLimits ⟨trip, fail⟩ s with ⟨oF0, uF0⟩
      rw [show getLimitsFrom ⟨trip, fail⟩ [0, 1, 2, 3] s = (oF0, uF0) from hF0] at h0n h0e
      dsimp only at h0n
      subst h0n
      rcases hN0 : getLimits ⟨trip, noFail⟩ s with ⟨oN0, uN0⟩
      rw [show getLimitsFrom ⟨trip, noFail⟩ [0, 1, 2, 3] s = (oN0, uN0) from hN0] at h0e
      cases oN0 with
      | none => exact Or.inr ⟨rfl, t0, h0e⟩
      | some run =>
        dsimp only
        obtain ⟨t1, h1o, _, _⟩ := calibRuns_delta ⟨trip, noFail⟩ n uN0
        rcases hN1 : calibRuns ⟨trip, noFail⟩ n uN0 with ⟨oN1, uN1⟩
        rw [hN1] at h1o
        have he : uN1.ops = uF0.ops ++ (t0 ++ t1) := by
          rw [h1o, h0e, List.append_assoc]
        cases oN1 with
        | none => exact Or.inr ⟨rfl, t0 ++ t1, he⟩
        | some runs => exact Or.inr ⟨rfl, t0 ++ t1, he⟩

/-- `calib` only ever appends to the operation log. -/
theorem calib_ops_extend (env : DevEnv) (n : Nat) (log : Bool) (s : DevState) :
    ∃ t, (calib env n log s).2.ops = s.ops ++ t := by
  unfold calib
  rcases ha : setLevel env 255 s with ⟨oa, sa⟩
  cases oa with
  | none =>
    have hsa : sa = s := setLevel_none_state ha
    subst hsa
    exact ⟨[], by simp⟩
  | some u =>
    dsimp only
    have hsa : sa = { s with ops := s.ops ++ [DevOp.setLevel 255] } :=
      setLevel_some_state ha
    rcases hb : calibRuns env n sa with ⟨ob, sb⟩
    obtain ⟨tb, ba, _, _⟩ := calibRuns_delta env n sa
    rw [hb] at ba
    have hsb : sb.ops = s.ops ++ ([DevOp.setLevel 255] ++ tb) := by
      rw [ba, hsa]; simp
    cases ob with
    | none => exact ⟨[DevOp.setLevel 255] ++ tb, hsb⟩
    | some runs =>
      dsimp only
      rcases hc : setLevel env 0 sb with ⟨oc, sc⟩
      cases oc with
      | none =>
        have hsc : sc = sb := setLevel_none_state hc
        subst hsc
        exact ⟨[DevOp.setLevel 255] ++ tb, hsb⟩
      | some u2 =>
        dsimp only
        have hsc : sc = { sb with ops := sb.ops ++ [DevOp.setLevel 0] } :=
          setLevel_some_state hc
        refine ⟨[DevOp.setLevel 255] ++ tb ++ [DevOp.setLevel 0], ?_⟩
        show sc.ops = _
        rw [hsc]
        dsimp only
        rw [hsb]
        simp

/-- Failures only truncate `calib`: a failing calibration performs a
prefix of the device operations of the corresponding failure-free one. -/
theorem calib_failPrefix (trip : Nat → Nat → Bool) (fail : Nat → Bool)
    (n : Nat) (log : Bool) (s : DevState) :
    calib ⟨trip, fail⟩ n log s = calib ⟨trip, noFail⟩ n log s ∨
    ((calib ⟨trip, fail⟩ n log s).1 = none ∧
      ∃ t, (calib ⟨trip, noFail⟩ n log s).2.ops =
        (calib ⟨trip, fail⟩ n log s).2.ops ++ t) := by
  unfold calib
  cases hf1 : fail s.ops.length with
  | true =>
    rw [setLevel_fail hf1, setLevel_ok (show noFail s.ops.length = false from rfl)]
    dsimp only
    rcases hb : calibRuns ⟨trip, noFail⟩ n
        { s with ops := s.ops ++ [DevOp.setLevel 255] } with ⟨ob, sb⟩
    obtain ⟨tb, ba, _, _⟩ := calibRuns_delta ⟨trip, noFail⟩ n
        { s with ops := s.ops ++ [DevOp.setLevel 255] }
    rw [hb] at ba
    dsimp only at ba
    cases ob with
    | none =>
      refine Or.inr ⟨rfl, [DevOp.setLevel 255] ++ tb, ?_⟩
      rw [ba]; simp
    | some runs =>
      dsimp only
      rcases hc : setLevel ⟨trip, noFail⟩ 0 sb with ⟨oc, sc⟩
      cases oc with
      | none =>
        have := setLevel_none_fail hc
        simp [noFail] at this
      | some u2 =>
        dsimp only
        have hsc : sc = { sb with ops := sb.ops ++ [DevOp.setLevel 0] } :=
          setLevel_some_state hc
        refine Or.inr ⟨rfl, [DevOp.setLevel 255] ++ tb ++ [DevOp.setLevel 0], ?_⟩
        show sc.ops = _
        rw [hsc]
        dsimp only
        rw [ba]
        simp
  | false =>
    rw [setLevel_ok hf1, setLevel_ok (show noFail s.ops.length = false from rfl)]
    dsimp only
    rcases calibRuns_failPrefix trip fail n
        { s with ops := s.ops ++ [DevOp.setLevel 255] } with h1 | ⟨h1n, t1, h1e⟩
    · rw [h1]
      rcases hb : calibRuns ⟨trip, noFail⟩ n
          { s with ops := s.ops ++ [DevOp.setLevel 255] } with ⟨ob, sb⟩
      cases ob with
      | none => exact Or.inl rfl
      | some runs =>
        dsimp only
        cases hf3 : fail sb.ops.length with
        | true =>
          rw [setLevel_fail hf3, setLevel_ok (show noFail sb.ops.length = false from rfl)]
          dsimp only
          exact Or.inr ⟨rfl, [DevOp.setLevel 0], rfl⟩
        | false =>
          rw [setLevel_ok hf3, setLevel_ok (show noFail sb.ops.length = false from rfl)]
          exact Or.inl rfl
    · rcases hF1 : calibRuns ⟨trip, fail⟩ n
          { s with ops := s.ops ++ [DevOp.setLevel 255] } with ⟨oF1, uF1⟩
      rw [hF1] at h1n h1e
      dsimp only at h1n
      subst h1n
      rcases hN1 : calibRuns ⟨trip, noFail⟩ n
          { s with ops := s.ops ++ [DevOp.setLevel 255] } with ⟨oN1, uN1⟩
      rw [hN1] at h1e
      cases oN1 with
      | none => exact Or.inr ⟨rfl, t1, h1e⟩
      | some runs =>
        dsimp only
        rw [setLevel_ok (show noFail uN1.ops.length = false from rfl)]
        dsimp only
        refine Or.inr ⟨rfl, t1 ++ [DevOp.setLevel 0], ?_⟩
        rw [h1e]
        simp

/-- C1 (amended): for every channel `c` in 0..3 and every monotonic trip
signal whose threshold `T c` is at most 254 — i.e. the signal actually
trips somewhere inside the searched range 0..255 — `findLimit(c, 0, 255)`
returns exactly the value `v = T c` at which the trip signal is false at
`v` and true at `v + 1`, performing at most 8 write/read device
round-trip steps (each step one `setChannels` write paired with one
`getLimitSignal` read). -/
theorem c1_findLimit_boundary (T : Nat → Nat) (c : Nat) (hc : c < 4) (hT : T c ≤ 254) :
    (findLimit ⟨thresholdTrip T, noFail⟩ c 0 255 256 initState).1 = some (T c) ∧
    thresholdTrip T c (T c) = false ∧
    thresholdTrip T c (T c + 1) = true ∧
    countWrites (findLimit ⟨thresholdTrip T, noFail⟩ c 0 255 256 initState).2.ops ≤ 8 := by
  obtain ⟨e1, e2⟩ := findLimit_threshold T hc 8 0 255 256 initState
    (by norm_num) (by norm_num) (Nat.zero_le _) (by omega)
  refine ⟨e1, by simp [thresholdTrip], by simp [thresholdTrip], ?_⟩
  simpa [initState, countWrites] using e2

/-- Witness for C1's amended theorem at threshold 100 on channel 0. -/
theorem c1_findLimit_boundary_witness :
    (findLimit ⟨thresholdTrip (fun _ => 100), noFail⟩ 0 0 255 256 initState).1 = some 100 ∧
    thresholdTrip (fun _ => 100) 0 100 = false ∧
    thresholdTrip (fun _ => 100) 0 101 = true ∧
    countWrites
      (findLimit ⟨thresholdTrip (fun _ => 100), noFail⟩ 0 0 255 256 initState).2.ops ≤ 8 :=
  c1_findLimit_boundary (fun _ => 100) 0 (by decide) (by decide)

/-- C1 counterexample to the unrestricted claim: for the monotonic trip
signal with threshold 255 (never trips on 0..255), `findLimit(0, 0, 255)`
returns 254, yet the trip signal is still false at 254 + 1 = 255 — the
returned value is not a `v` with trip false at `v` and true at `v + 1`
(that `v` is 255, which the search cannot return). -/
theorem c1_threshold_255_counterexample :
    (findLimit ⟨thresholdTrip (fun _ => 255), noFail⟩ 0 0 255 256 initState).1 = some 254 ∧
    thresholdTrip (fun _ => 255) 0 (254 + 1) = false ∧
    thresholdTrip (fun _ => 255) 0 255 = false ∧
    thresholdTrip (fun _ => 255) 0 256 = true := by
  refine ⟨by decide, by decide, by decide, by decide⟩

/-- C2: the claim says `calibrate`'s per-channel aggregation picks the
element at index `floor(n/2)` of the samples sorted in ascending
*numeric* order.  The code's `median` uses JavaScript's comparator-less
`Array.prototype.sort()`, which sorts numbers as *strings*: on the
samples `[5, 100]` it produces `[100, 5]` and returns `5`, while the
numeric rule the spec states returns `100`. -/
theorem c2_median_string_sort_bug :
    median [5, 100] = 5 ∧ specAggregate [5, 100] = 100 ∧ jsSort [5, 100] = [100, 5] := by
  refine ⟨by decide, by decide, by decide⟩

/-- C3 (amended): `calib` itself always writes the computed `LimitSet`
to the persistent store (its final `storage.setItem(limitsKey, limits)`)
whenever it completes; persistence is not left to the caller, and in
particular the `long` command (calib with 100 runs) discards only the
returned value — the `LimitSet` has already been persisted by `calib`. -/
theorem c3_calib_always_persists (env : DevEnv) (n : Nat) (log : Bool) (s : DevState)
    (L : List Nat) (h : (calib env n log s).1 = some L) :
    (calib env n log s).2.stored = s.stored ++ [L] :=
  calib_some_stored env n log s L h

/-- Witness for C3's amended theorem: a concrete 1-run calibration whose
result `[100,100,100,100]` is written to the store by `calib` itself. -/
theorem c3_calib_always_persists_witness :
    (calib ⟨thresholdTrip (fun _ => 100), noFail⟩ 1 true initState).2.stored =
      initState.stored ++ [[100, 100, 100, 100]] :=
  c3_calib_always_persists ⟨thresholdTrip (fun _ => 100), noFail⟩ 1 true initState
    [100, 100, 100, 100] (by decide)

/-- C3 counterexample: `calib` does write the computed `LimitSet` to the
persistent store — here a 1-run calibration against thresholds 100 leaves
`[[100,100,100,100]]` in the store, refuting "calibrate itself never
writes the computed LimitSet to the persistent store". -/
theorem c3_calib_persists_counterexample :
    (calib ⟨thresholdTrip (fun _ => 100), noFail⟩ 1 true initState).2.stored =
      [[100, 100, 100, 100]] ∧
    (calib ⟨thresholdTrip (fun _ => 100), noFail⟩ 1 true initState).2.stored ≠ [] := by
  refine ⟨by decide, by decide⟩

/-- C4 (amended): level initialization sends the persisted value exactly
when that value is nonzero; it sends 255 when no value is persisted *or*
when the persisted value is 0, because the source computes the level as
`level || 255` and `0` is falsy in JavaScript. -/
theorem c4_initLevels_fallback (env : DevEnv) (storedLevel : Option Nat) (s : DevState)
    (hf : env.fail s.ops.length = false) :
    (initLevels env storedLevel s).2.ops =
      s.ops ++ [DevOp.setLevel (levelFallback storedLevel)] ∧
    (∀ v, v ≠ 0 → levelFallback (some v) = v) ∧
    levelFallback none = 255 ∧ levelFallback (some 0) = 255 := by
  refine ⟨?_, ?_, rfl, rfl⟩
  · rw [initLevels, setLevel_ok hf]
  · intro v hv
    simp [levelFallback, hv]

/-- Witness for C4's amended theorem with persisted level 3. -/
theorem c4_initLevels_fallback_witness :
    (initLevels ⟨fun _ _ => false, noFail⟩ (some 3) initState).2.ops =
      initState.ops ++ [DevOp.setLevel (levelFallback (some 3))] ∧
    (∀ v, v ≠ 0 → levelFallback (some v) = v) ∧
    levelFallback none = 255 ∧ levelFallback (some 0) = 255 :=
  c4_initLevels_fallback ⟨fun _ _ => false, noFail⟩ (some 3) initState rfl

/-- C4 counterexample: with a persisted level of exactly 0, level
initialization sets the device's level to 255, not to the persisted
value 0 — refuting "for every persisted value (including 0) the level is
set to exactly that value". -/
theorem c4_persisted_zero_counterexample :
    (initLevels ⟨fun _ _ => false, noFail⟩ (some 0) initState).2.ops =
      [DevOp.setLevel 255] ∧ (255 : Nat) ≠ 0 := by
  refine ⟨by decide, by decide⟩

/-- C5: for every channel index, every trip-signal function (monotonic
or not) and every `lo ≤ hi`, `findLimit` terminates with a value: any
fuel above the range width suffices, all such fuels give the same
deterministic outcome, and the search range strictly shrinks at each
recursive step (`mid ≠ lo`). -/
theorem c5_findLimit_terminates (trip : Nat → Nat → Bool) (idx lo hi fuel : Nat)
    (s : DevState) (hlh : lo ≤ hi) (hfuel : hi - lo < fuel) :
    (findLimit ⟨trip, noFail⟩ idx lo hi fuel s).1.isSome = true ∧
    findLimit ⟨trip, noFail⟩ idx lo hi fuel s =
      findLimit ⟨trip, noFail⟩ idx lo hi (hi - lo + 1) s ∧
    ((lo + hi) / 2 ≠ lo → (lo + hi) / 2 - lo < hi - lo ∧ hi - (lo + hi) / 2 < hi - lo) :=
  ⟨findLimit_isSome trip idx fuel lo hi s hlh hfuel,
   findLimit_fuel ⟨trip, noFail⟩ idx fuel (hi - lo + 1) lo hi s hlh hfuel (by omega),
   fun hml => by omega⟩

/-- Witness for C5 with a non-monotonic trip signal on range 3..10. -/
theorem c5_findLimit_terminates_witness :
    (findLimit ⟨fun _ v => decide (v % 3 = 1), noFail⟩ 2 3 10 8 initState).1.isSome = true ∧
    findLimit ⟨fun _ v => decide (v % 3 = 1), noFail⟩ 2 3 10 8 initState =
      findLimit ⟨fun _ v => decide (v % 3 = 1), noFail⟩ 2 3 10 (10 - 3 + 1) initState ∧
    ((3 + 10) / 2 ≠ 3 → (3 + 10) / 2 - 3 < 10 - 3 ∧ 10 - (3 + 10) / 2 < 10 - 3) :=
  c5_findLimit_terminates (fun _ v => decide (v % 3 = 1)) 2 3 10 8 initState
    (by decide) (by decide)

/-- C6: channel isolation — every `setChannels` array in the device log
after `findLimit(idx, lo, hi)` runs (from a log whose previous writes
were already isolated to `idx`) is zero on every channel other than
`idx`, for any environment, any `lo`, `hi` and any fuel. -/
theorem c6_channel_isolation (env : DevEnv) (idx lo hi fuel : Nat) (s : DevState)
    (hidx : idx < 4)
    (hpre : ∀ vals, DevOp.setChannels vals ∈ s.ops →
      ∀ j, j < 4 → j ≠ idx → vals.getD j 0 = 0) :
    ∀ vals, DevOp.setChannels vals ∈ (findLimit env idx lo hi fuel s).2.ops →
      ∀ j, j < 4 → j ≠ idx → vals.getD j 0 = 0 := by
  obtain ⟨t, ha, _, hc⟩ := findLimit_delta env idx fuel lo hi s
  intro vals hmem j hj hne
  rw [ha] at hmem
  rcases List.mem_append.1 hmem with h | h
  · exact hpre vals h j hj hne
  · rcases hc _ h with ⟨vals2, he, hiso⟩ | he
    · injection he with hv
      subst hv
      exact hiso j hj hne
    · simp at he

/-- Witness for C6: searching channel 1 from the empty log, the first
write `[0,127,0,0]` is in the log and is zero on channel 0. -/
theorem c6_channel_isolation_witness :
    ([0, 127, 0, 0] : List Nat).getD 0 0 = 0 :=
  c6_channel_isolation ⟨thresholdTrip (fun _ => 100), noFail⟩ 1 0 255 256 initState
    (by decide) (by simp [initState]) [0, 127, 0, 0] (by decide) 0 (by decide) (by decide)

/-- C7: if any device error occurs during a calibration (the run returns
no `LimitSet`), the whole calibration has aborted: nothing was written to
the persistent store — no partial `LimitSet` — and the device operations
performed are a prefix of those of the same calibration without the
failure, so no run was retried and nothing extra was attempted. -/
theorem c7_error_aborts_calibration (trip : Nat → Nat → Bool) (fail : Nat → Bool)
    (n : Nat) (log : Bool) (s : DevState)
    (hnone : (calib ⟨trip, fail⟩ n log s).1 = none) :
    (calib ⟨trip, fail⟩ n log s).2.stored = s.stored ∧
    ∃ t, (calib ⟨trip, noFail⟩ n log s).2.ops =
      (calib ⟨trip, fail⟩ n log s).2.ops ++ t := by
  refine ⟨(calib_none_frame ⟨trip, fail⟩ n log s hnone).1, ?_⟩
  rcases calib_failPrefix trip fail n log s with h | ⟨_, t, he⟩
  · rw [h]
    exact ⟨[], by simp⟩
  · exact ⟨t, he⟩

/-- Witness for C7: a 1-run calibration whose 6th round trip fails. -/
theorem c7_error_aborts_calibration_witness :
    (calib ⟨thresholdTrip (fun _ => 100), fun k => decide (k = 5)⟩ 1 true initState).2.stored =
      initState.stored ∧
    ∃ t, (calib ⟨thresholdTrip (fun _ => 100), noFail⟩ 1 true initState).2.ops =
      (calib ⟨thresholdTrip (fun _ => 100), fun k => decide (k = 5)⟩ 1 true initState).2.ops
        ++ t :=
  c7_error_aborts_calibration (thresholdTrip (fun _ => 100)) (fun k => decide (k = 5))
    1 true initState (by decide)

/-- C8: colour scaling is monotonic — for a fixed `LimitSet` and
fractions `0 ≤ k1 < k2`, each channel value `floor(k * limit)` computed
for `k1` is at most the one computed for `k2`.  The JavaScript float
fraction is modelled as a rational. -/
theorem c8_colour_monotonic (lim : List Nat) (k1 k2 : ℚ) (i : Nat)
    (h0 : 0 ≤ k1) (h12 : k1 < k2) :
    (colourValues k1 lim).getD i 0 ≤ (colourValues k2 lim).getD i 0 := by
  have e1 : (colourValues k1 lim)[i]? =
      Option.map (fun x : Nat => Int.floor (k1 * (x : ℚ))) lim[i]? := by
    unfold colourValues
    exact List.getElem?_map _ lim i
  have e2 : (colourValues k2 lim)[i]? =
      Option.map (fun x : Nat => Int.floor (k2 * (x : ℚ))) lim[i]? := by
    unfold colourValues
    exact List.getElem?_map _ lim i
  rw [List.getD_eq_getElem?_getD, List.getD_eq_getElem?_getD, e1, e2]
  rcases lim[i]? with _ | x
  · rfl
  · exact Int.floor_le_floor
      (mul_le_mul_of_nonneg_right (le_of_lt h12) (by positivity))

/-- Witness for C8 on the calibrated limits from the source's comments,
with fractions 1/2 and 1 on channel 0. -/
theorem c8_colour_monotonic_witness :
    (colourValues (1/2 : ℚ) [228, 214, 185, 184]).getD 0 0 ≤
      (colourValues (1 : ℚ) [228, 214, 185, 184]).getD 0 0 :=
  c8_colour_monotonic [228, 214, 185, 184] (1/2) 1 0 (by norm_num) (by norm_num)

/-- C9: when a calibration aborts on an error after its initial
`setLevel(255)` succeeded, no `setLevel(0)` round trip ever succeeds —
the `setLevel` commands executed are exactly `[255]`, so the device is
left at full level 255.  (A failed round trip is modelled as having no
device effect.) -/
theorem c9_no_cleanup_on_error (env : DevEnv) (n : Nat) (log : Bool)
    (hf0 : env.fail 0 = false)
    (hnone : (calib env n log initState).1 = none) :
    DevOp.setLevel 0 ∉ (calib env n log initState).2.ops ∧
    lastLevel (calib env n log initState).2.ops = some 255 := by
  have hlv := (calib_none_frame env n log initState hnone).2 hf0
  have hlv2 : levelsOf (calib env n log initState).2.ops = [255] := by
    simpa [initState, levelsOf] using hlv
  constructor
  · intro hmem
    have h0 : (0 : Nat) ∈ levelsOf (calib env n log initState).2.ops := mem_levelsOf hmem
    rw [hlv2] at h0
    simp at h0
  · rw [lastLevel, hlv2]
    rfl

/-- Witness for C9: the same failing 1-run calibration as C7's witness
leaves the device at level 255 with no `setLevel(0)` issued. -/
theorem c9_no_cleanup_on_error_witness :
    DevOp.setLevel 0 ∉
      (calib ⟨thresholdTrip (fun _ => 100), fun k => decide (k = 5)⟩ 1 true initState).2.ops ∧
    lastLevel
      (calib ⟨thresholdTrip (fun _ => 100),
        fun k => decide (k = 5)⟩ 1 true initState).2.ops = some 255 :=
  c9_no_cleanup_on_error ⟨thresholdTrip (fun _ => 100), fun k => decide (k = 5)⟩ 1 true
    (by decide) (by decide)

/-- C10: for every channel index 0..3, if the JSON object returned by
`GET /limit` lacks the field for that channel's pin, `getLimitSignal`'s
decoding reports the channel as tripped, because the absent field reads
as `undefined` and `undefined !== 0` is `true`. -/
theorem c10_missing_field_reads_tripped (idx : Nat) (j : String → Option Nat)
    (hidx : idx < 4) (hj : j (channelKey.getD idx "") = none) :
    limitSignalOfJson j idx = true := by
  rw [limitSignalOfJson, hj]

/-- Witness for C10: the empty JSON object reads as tripped on
channel 0. -/
theorem c10_missing_field_reads_tripped_witness :
    limitSignalOfJson (fun _ => none) 0 = true :=
  c10_missing_field_reads_tripped 0 (fun _ => none) (by decide) rfl

end LinearLight
